import Mathlib

/-!
Verification of the query-parameter binding layer (`cql3::query_options`)
of the repository, as a shallow embedding in Lean 4.

The header `src/cql3/query_options.hh` declares the class and contains the
batch-derivation constructor inline (lines 177-186); the out-of-line member
bodies are not part of the provided sources, so those operations are
modelled from the specification. Each such definition carries a doc comment
beginning with the words Modelled from the spec.
-/

namespace cql3

/-- Byte buffers (`std::vector<int8_t>` entries of `_temporaries`, the
contents of `cql3::raw_value`): modelled as lists of integers. -/
abbrev Bytes := List Int

/-- Opaque consistency level (`db::consistency_level`). -/
abbrev consistency_level := Nat

/-- Opaque paging-state token (`service::pager::paging_state`). -/
abbrev paging_state := Nat

/-- Modelled from the spec: the sentinel timestamp meaning that the server
assigns the timestamp at execution time (`api::timestamp_type` sentinel,
whose definition is outside the provided sources). -/
def sentinel_timestamp : Int := -(2 ^ 63)

/-- `query_options::specific_options` (`query_options.hh` lines 63-70):
page size, paging state, optional serial consistency, timestamp. -/
structure specific_options where
  page_size : Int
  state : Option paging_state
  serial_consistency : Option consistency_level
  timestamp : Int
deriving Repr, DecidableEq, Inhabited

/-- Modelled from the spec: `specific_options::DEFAULT`, whose initializer
is out of line: page size -1, no paging state, no serial consistency,
sentinel timestamp. -/
def specific_options.DEFAULT : specific_options :=
  { page_size := -1, state := none, serial_consistency := none,
    timestamp := sentinel_timestamp }

/-- A value view (`cql3::raw_value_view`): a reference either into external
wire-buffer storage, into the entry `i` of the owning object
(`_values[i]`), or into entry `i` of the temporaries table
(`_temporaries[i]`). -/
inductive view_ref where
  | external (b : Bytes)
  | ownedIdx (i : Nat)
  | tempIdx (i : Nat)
deriving Repr, DecidableEq, Inhabited

/-- A column specification (`cql3::column_specification`): a name plus an
opaque declared type. -/
structure column_specification where
  name : String
  ty : Nat
deriving Repr, DecidableEq, Inhabited

/-- The fields of one `query_options` object other than `_batch_options`
(`query_options.hh` lines 72-79). Batch members are stored in this form:
the batch constructor never gives a member its own member list. -/
structure query_options_base where
  consistency : consistency_level
  names : Option (List String)
  values : List Bytes
  value_views : List view_ref
  temporaries : List Bytes
  skip_metadata : Bool
  options : specific_options
  serialization_format : Nat
deriving Repr, DecidableEq, Inhabited

/-- `cql3::query_options` (`query_options.hh` lines 60-169): the base
fields plus the optional `_batch_options` member list. -/
structure query_options extends query_options_base where
  batch_options : Option (List query_options_base)
deriving Repr, DecidableEq, Inhabited

/-- Modelled from the spec: `query_options::fill_value_views` (declared at
`query_options.hh` line 168, body out of line) - when values were supplied
as owned buffers, build the parallel view list by referencing each owned
buffer in place; when values came in as views already (the zero-copy wire
path, `_values` empty), no materialization work occurs. -/
def fill_value_views (q : query_options) : query_options :=
  if q.values.isEmpty then q
  else { q with value_views := (List.range q.values.length).map view_ref.ownedIdx }

/-- Reading a view in the context of the owning `query_options`. -/
def read_view (q : query_options) : view_ref → Option Bytes
  | .external b => some b
  | .ownedIdx i => q.values[i]?
  | .tempIdx i => q.temporaries[i]?

/-- Modelled from the spec: `query_options::get_value_at(idx)` (declared at
`query_options.hh` line 146) - a borrowed view of the value at `idx`; an
out-of-range index is a fault, modelled as `none`. -/
def get_value_at (q : query_options) (idx : Nat) : Option Bytes :=
  q.value_views[idx]?.bind (read_view q)

/-- Modelled from the spec: `query_options::make_temporary(value)`
(declared at `query_options.hh` line 147) - take ownership of the buffer,
store it in the `_temporaries` table and return a view into the stored
copy. -/
def make_temporary (q : query_options) (value : Bytes) : query_options × view_ref :=
  ({ q with temporaries := q.temporaries ++ [value] },
   view_ref.tempIdx q.temporaries.length)

/-- Any number of further `make_temporary` calls in sequence, keeping only
the resulting state. -/
def add_temporaries (q : query_options) : List Bytes → query_options
  | [] => q
  | b :: bs => add_temporaries (make_temporary q b).1 bs

/-- Modelled from the spec: the owned-values constructor (the
`std::vector<cql3::raw_value>` overload, `query_options.hh` lines 105-110)
- store the owned buffers and materialize the view list before first
read. -/
def query_options.from_values (c : consistency_level) (nm : Option (List String))
    (vals : List Bytes) (skip : Bool) (so : specific_options) (sf : Nat) :
    query_options :=
  fill_value_views
    { consistency := c, names := nm, values := vals, value_views := [],
      temporaries := [], skip_metadata := skip, options := so,
      serialization_format := sf, batch_options := none }

/-- The batch constructor (`query_options.hh` lines 177-186, present in the
sources): derive one member per values range, each built from the base
`_consistency`, empty names `{}`, the range as its own values, and the base
`_skip_metadata`, `_options` and `_cql_serialization_format`; the member
list becomes `_batch_options` of the base. -/
def make_batch_options (o : query_options) (values_ranges : List (List Bytes)) :
    query_options :=
  { o with batch_options := some (values_ranges.map (fun values_range =>
      (query_options.from_values o.consistency none values_range
        o.skip_metadata o.options o.serialization_format).toquery_options_base)) }

/-- The `i`-th batch member, when this instance is a batch base. -/
def batch_member (q : query_options) (i : Nat) : Option query_options_base :=
  q.batch_options.bind (fun ms => ms[i]?)

/-- A batch member viewed as a full options object (the `_batch_options`
field of a member is absent). -/
def query_options_base.as_options (b : query_options_base) : query_options :=
  { toquery_options_base := b, batch_options := none }

/-- Modelled from the spec: `query_options::for_statement(i)` (declared at
`query_options.hh` line 165) - on a batch base, the `i`-th member; on a
non-batch instance, the instance itself. -/
def for_statement (q : query_options) (i : Nat) : Option query_options :=
  match q.batch_options with
  | none => some q
  | some ms => ms[i]?.map query_options_base.as_options

/-- Faults signalled by the parameter binder. -/
inductive bind_fault where
  | cardinality
  | nameResolution
deriving Repr, DecidableEq

/-- Values reordered so that position `i` corresponds to `specs[i]`: the
value originally labelled (in `ns`) by the name of `specs[i]`. -/
def reorder_by_names (ns : List String) (vals : List Bytes)
    (specs : List column_specification) : List Bytes :=
  specs.map (fun s =>
    match ns.findIdx? (fun n => n == s.name) with
    | some j => vals.getD j []
    | none => [])

/-- Modelled from the spec: `query_options::prepare(specs)` (declared at
`query_options.hh` line 166) - with names present, every name must match a
spec name and be unique, and values (with the view list rebuilt
consistently) are reordered to the positional order of the specs; with
names absent, the value count must equal the spec count. On a fault the
instance is returned unchanged: binding is all-or-nothing. -/
def prepare (q : query_options) (specs : List column_specification) :
    query_options × Option bind_fault :=
  match q.names with
  | none =>
      if q.values.length = specs.length then (q, none)
      else (q, some bind_fault.cardinality)
  | some ns =>
      if (∀ n ∈ ns, ∃ s ∈ specs, s.name = n) ∧ ns.Nodup then
        let reordered := reorder_by_names ns q.values specs
        ({ q with values := reordered,
                  value_views := (List.range reordered.length).map view_ref.ownedIdx },
         none)
      else (q, some bind_fault.nameResolution)

/-- Modelled from the spec: the per-thread Default Singleton
`query_options::DEFAULT` (declared at `query_options.hh` line 139, lazily
constructed per executor thread) - empty values, default specific options.
The argument records which executor thread constructs its copy; the content
does not depend on it, and in this pure embedding the instance is never
mutated after construction. -/
def query_options.DEFAULT (_thread : Nat) : query_options :=
  { consistency := 1, names := none, values := [], value_views := [],
    temporaries := [], skip_metadata := false,
    options := specific_options.DEFAULT, serialization_format := 3,
    batch_options := none }

/-- A concrete specific-options bundle used in concrete instantiations. -/
def sample_specific : specific_options :=
  { page_size := 10, state := some 7, serial_consistency := some 2, timestamp := 42 }

/-- A concrete base options object used in concrete instantiations; it
carries names, a value, a view and a temporary of its own. -/
def sample_base : query_options :=
  { consistency := 3, names := some ["z"], values := [[5]],
    value_views := [view_ref.ownedIdx 0], temporaries := [[9]],
    skip_metadata := true, options := sample_specific,
    serialization_format := 4, batch_options := none }

/-- A concrete instance bound by name: names ["b", "a"] labelling values
[x, y] with x = [1] and y = [2]. -/
def named_query : query_options :=
  { consistency := 1, names := some ["b", "a"], values := [[1], [2]],
    value_views := [view_ref.ownedIdx 0, view_ref.ownedIdx 1],
    temporaries := [], skip_metadata := false,
    options := specific_options.DEFAULT, serialization_format := 3,
    batch_options := none }

/-- A concrete column specification named "a". -/
def spec_a : column_specification := { name := "a", ty := 0 }

/-- A concrete column specification named "b". -/
def spec_b : column_specification := { name := "b", ty := 0 }

/-- The owned-values constructor, written out field by field: storing `V`
and materializing one owned-storage view per value. -/
lemma from_values_eq (c : consistency_level) (nm : Option (List String))
    (V : List Bytes) (skip : Bool) (so : specific_options) (sf : Nat) :
    query_options.from_values c nm V skip so sf =
      { consistency := c, names := nm, values := V,
        value_views := (List.range V.length).map view_ref.ownedIdx,
        temporaries := [], skip_metadata := skip, options := so,
        serialization_format := sf, batch_options := none } := by
  unfold query_options.from_values fill_value_views
  by_cases h : V.isEmpty
  · rw [List.isEmpty_iff] at h
    subst h
    rfl
  · simp [h]

/-- C1: for every base with consistency `C`, specific options `S`,
serialization format `F` and skip-metadata flag `K`, and every sequence of
value ranges, `make_batch_options` produces exactly one member per range,
and the member at `i` has consistency `C`, specific options `S`, format
`F`, flag `K`, and values equal to the `i`-th range. -/
theorem make_batch_options_members_share_state (base : query_options)
    (ranges : List (List Bytes)) (i : Nat) (r : List Bytes)
    (hr : ranges[i]? = some r) :
    (make_batch_options base ranges).batch_options.map List.length = some ranges.length ∧
    ∃ m, batch_member (make_batch_options base ranges) i = some m ∧
      m.consistency = base.consistency ∧
      m.options = base.options ∧
      m.serialization_format = base.serialization_format ∧
      m.skip_metadata = base.skip_metadata ∧
      m.values = r := by
  constructor
  · simp [make_batch_options]
  · refine ⟨(query_options.from_values base.consistency none r base.skip_metadata
      base.options base.serialization_format).toquery_options_base, ?_, ?_, ?_, ?_, ?_, ?_⟩
    · simp [batch_member, make_batch_options, List.getElem?_map, hr]
    · simp [from_values_eq]
    · simp [from_values_eq]
    · simp [from_values_eq]
    · simp [from_values_eq]
    · simp [from_values_eq]

/-- C1 witness: the theorem applied to a concrete base and two concrete
ranges, at index 0. -/
theorem make_batch_options_members_share_state_witness :
    ([[[1]], [[2], [3]]] : List (List Bytes))[0]? = some [[1]] ∧
    ((make_batch_options sample_base [[[1]], [[2], [3]]]).batch_options.map List.length =
        some 2 ∧
     ∃ m, batch_member (make_batch_options sample_base [[[1]], [[2], [3]]]) 0 = some m ∧
       m.consistency = sample_base.consistency ∧
       m.options = sample_base.options ∧
       m.serialization_format = sample_base.serialization_format ∧
       m.skip_metadata = sample_base.skip_metadata ∧
       m.values = [[1]]) :=
  ⟨rfl, make_batch_options_members_share_state sample_base [[[1]], [[2], [3]]] 0 [[1]] rfl⟩

/-- C2: batch derivation does not mutate the own values of the base - the
whole base part of the batch container is unchanged, and only the member
list is added (it becomes present). -/
theorem make_batch_options_preserves_base_values (base : query_options)
    (ranges : List (List Bytes)) :
    (make_batch_options base ranges).values = base.values ∧
    (make_batch_options base ranges).toquery_options_base = base.toquery_options_base ∧
    (make_batch_options base ranges).batch_options.isSome = true :=
  ⟨rfl, rfl, rfl⟩

/-- C3 counterexample: deriving from zero ranges yields a member list that
is present and empty, so presence of `_batch_options` does not imply
non-emptiness. -/
theorem batch_members_present_empty_counterexample :
    ¬ (∀ ms, (make_batch_options sample_base []).batch_options = some ms → ms ≠ []) :=
  fun h => h [] rfl rfl

/-- C3 amended: after batch derivation the member list is present and its
length equals the number of ranges supplied; with zero ranges it is
present and empty. -/
theorem make_batch_options_member_count (base : query_options)
    (ranges : List (List Bytes)) :
    (make_batch_options base ranges).batch_options.map List.length = some ranges.length := by
  simp [make_batch_options]

/-- C10: every member produced by batch derivation carries an absent names
sequence, regardless of the names of the base. -/
theorem batch_member_names_absent (base : query_options)
    (ranges : List (List Bytes)) (i : Nat) (m : query_options_base)
    (hm : batch_member (make_batch_options base ranges) i = some m) :
    m.names = none := by
  have hm2 : (ranges.map (fun r =>
      (query_options.from_values base.consistency none r
        base.skip_metadata base.options base.serialization_format).toquery_options_base))[i]? =
      some m := hm
  rw [List.getElem?_map] at hm2
  obtain ⟨r, _, hfr⟩ := Option.map_eq_some'.mp hm2
  rw [← hfr]
  simp [from_values_eq]

/-- C10 witness: the theorem applied to a concrete base that itself carries
names, with one concrete range. -/
theorem batch_member_names_absent_witness :
    batch_member (make_batch_options sample_base [[[1]]]) 0 =
      some (query_options.from_values sample_base.consistency none [[1]]
        sample_base.skip_metadata sample_base.options
        sample_base.serialization_format).toquery_options_base ∧
    (query_options.from_values sample_base.consistency none [[1]]
        sample_base.skip_metadata sample_base.options
        sample_base.serialization_format).toquery_options_base.names = none :=
  ⟨rfl, batch_member_names_absent sample_base [[[1]]] 0 _ rfl⟩

/-- On an instance whose view list consists of one owned-storage view per
value, `get_value_at` is exactly positional lookup in the values. -/
lemma get_value_at_materialized (q : query_options)
    (h : q.value_views = (List.range q.values.length).map view_ref.ownedIdx)
    (i : Nat) : get_value_at q i = q.values[i]? := by
  unfold get_value_at
  rw [h, List.getElem?_map]
  by_cases hi : i < q.values.length
  · rw [List.getElem?_range hi]
    simp [read_view]
  · have h1 : (List.range q.values.length)[i]? = none :=
      List.getElem?_eq_none (by simpa using Nat.le_of_not_lt hi)
    rw [h1, List.getElem?_eq_none (Nat.le_of_not_lt hi)]
    rfl

/-- C6: the view-materialization pass is idempotent - a second run on an
already-materialized instance is a no-op - and after constructing from
owned buffers `V`, `get_value_at` yields exactly the content of `V` at
every position (and `none` out of range). -/
theorem fill_value_views_idempotent_and_roundtrip (q : query_options)
    (c : consistency_level) (nm : Option (List String)) (V : List Bytes)
    (skip : Bool) (so : specific_options) (sf : Nat) (i : Nat) :
    fill_value_views (fill_value_views q) = fill_value_views q ∧
    get_value_at (query_options.from_values c nm V skip so sf) i = V[i]? := by
  constructor
  · unfold fill_value_views
    by_cases h : q.values.isEmpty
    · simp [h]
    · simp [h]
  · have hv : (query_options.from_values c nm V skip so sf).value_views =
        (List.range (query_options.from_values c nm V skip so sf).values.length).map
          view_ref.ownedIdx := by
      rw [from_values_eq]
    rw [get_value_at_materialized _ hv i, from_values_eq]

/-- The temporaries table after a sequence of further `make_temporary`
calls: the original table with all the new buffers appended in order. -/
lemma add_temporaries_temporaries (bs : List Bytes) (q : query_options) :
    (add_temporaries q bs).temporaries = q.temporaries ++ bs := by
  induction bs generalizing q with
  | nil => simp [add_temporaries]
  | cons b bs ih =>
      rw [add_temporaries, ih]
      simp [make_temporary]

/-- C7: `make_temporary` stores the buffer in the temporaries table and
returns a view whose content equals the buffer; the view stays readable
with the same content after any number of further `make_temporary` calls
on the same instance. -/
theorem make_temporary_view_content_stable (q : query_options) (b : Bytes)
    (bs : List Bytes) :
    (make_temporary q b).1.temporaries = q.temporaries ++ [b] ∧
    read_view (make_temporary q b).1 (make_temporary q b).2 = some b ∧
    read_view (add_temporaries (make_temporary q b).1 bs) (make_temporary q b).2 = some b := by
  refine ⟨rfl, ?_, ?_⟩
  · show (q.temporaries ++ [b])[q.temporaries.length]? = some b
    exact List.getElem?_concat_length q.temporaries b
  · show (add_temporaries (make_temporary q b).1 bs).temporaries[q.temporaries.length]? = some b
    rw [add_temporaries_temporaries]
    show ((q.temporaries ++ [b]) ++ bs)[q.temporaries.length]? = some b
    rw [List.getElem?_append_left (by simp)]
    exact List.getElem?_concat_length q.temporaries b

/-- C8: `for_statement i` on a non-batch instance returns the instance
itself, for every index `i`, bound or not. -/
theorem for_statement_nonbatch_identity (q : query_options) (i : Nat)
    (h : q.batch_options = none) :
    for_statement q i = some q := by
  unfold for_statement
  rw [h]

/-- C8 witness: the theorem applied to a concrete non-batch instance at an
index far beyond any bound. -/
theorem for_statement_nonbatch_identity_witness :
    (query_options.DEFAULT 0).batch_options = none ∧
    for_statement (query_options.DEFAULT 0) 1000000 = some (query_options.DEFAULT 0) :=
  ⟨rfl, for_statement_nonbatch_identity (query_options.DEFAULT 0) 1000000 rfl⟩

/-- C9: Default Singleton instances constructed by distinct executor
threads are content-equal, with page size -1, no paging state, no serial
consistency, the sentinel timestamp, and empty values; the pure embedding
admits no mutation after construction. -/
theorem default_singleton_content_equal (t1 t2 : Nat) :
    query_options.DEFAULT t1 = query_options.DEFAULT t2 ∧
    (query_options.DEFAULT t1).options.page_size = -1 ∧
    (query_options.DEFAULT t1).options.state = none ∧
    (query_options.DEFAULT t1).options.serial_consistency = none ∧
    (query_options.DEFAULT t1).options.timestamp = sentinel_timestamp ∧
    (query_options.DEFAULT t1).values = [] :=
  ⟨rfl, rfl, rfl, rfl, rfl, rfl⟩

/-- Binding by name, success case: names are present, every name matches a
spec name and names are unique, so values are reordered to the positional
order of the specs and the view list is rebuilt over them. -/
lemma prepare_of_names_some_ok (q : query_options)
    (specs : List column_specification) (ns : List String)
    (hn : q.names = some ns)
    (hc : (∀ n ∈ ns, ∃ s ∈ specs, s.name = n) ∧ ns.Nodup) :
    prepare q specs =
      ({ q with values := reorder_by_names ns q.values specs,
                value_views :=
                  (List.range (reorder_by_names ns q.values specs).length).map
                    view_ref.ownedIdx }, none) := by
  simp only [prepare, hn]
  rw [if_pos hc]

/-- Binding by name, fault case: an unmatched or duplicated name leaves the
instance unchanged and signals a name-resolution fault. -/
lemma prepare_of_names_some_fault (q : query_options)
    (specs : List column_specification) (ns : List String)
    (hn : q.names = some ns)
    (hc : ¬ ((∀ n ∈ ns, ∃ s ∈ specs, s.name = n) ∧ ns.Nodup)) :
    prepare q specs = (q, some bind_fault.nameResolution) := by
  simp only [prepare, hn]
  rw [if_neg hc]

/-- Positional binding, success case: matching counts change nothing. -/
lemma prepare_of_names_none_ok (q : query_options)
    (specs : List column_specification) (hn : q.names = none)
    (hl : q.values.length = specs.length) :
    prepare q specs = (q, none) := by
  simp only [prepare, hn]
  rw [if_pos hl]

/-- Positional binding, fault case: a count mismatch leaves the instance
unchanged and signals a cardinality fault. -/
lemma prepare_of_names_none_fault (q : query_options)
    (specs : List column_specification) (hn : q.names = none)
    (hl : q.values.length ≠ specs.length) :
    prepare q specs = (q, some bind_fault.cardinality) := by
  simp only [prepare, hn]
  rw [if_neg hl]

/-- C4: when names are present, unique, and each matched by a spec,
`prepare` succeeds and reorders values (and the view list, consistently) so
that the value originally labelled by the name of `specs[i]` - the value at
the position `j` where that name sits in the names - ends up at
position `i`. -/
theorem prepare_reorders_values_by_name (q : query_options) (ns : List String)
    (specs : List column_specification) (i : Nat) (s : column_specification)
    (j : Nat) (hn : q.names = some ns) (hnd : ns.Nodup)
    (hcov : ∀ n ∈ ns, ∃ t ∈ specs, t.name = n)
    (hs : specs[i]? = some s)
    (hj : ns.findIdx? (fun n => n == s.name) = some j)
    (hjv : j < q.values.length) :
    (prepare q specs).2 = none ∧
    (prepare q specs).1.values[i]? = q.values[j]? ∧
    get_value_at (prepare q specs).1 i = q.values[j]? := by
  rw [prepare_of_names_some_ok q specs ns hn ⟨hcov, hnd⟩]
  have h2 : (reorder_by_names ns q.values specs)[i]? = q.values[j]? := by
    unfold reorder_by_names
    rw [List.getElem?_map, hs]
    simp only [Option.map_some']
    rw [hj]
    show some (q.values.getD j []) = q.values[j]?
    rw [List.getD_eq_getElem?_getD, List.getElem?_eq_getElem hjv]
    rfl
  refine ⟨rfl, h2, ?_⟩
  rw [get_value_at_materialized _ rfl i]
  exact h2

/-- C4 witness: names ["b", "a"], values [[1], [2]] and specs [a, b]; the
value labelled "a" (at original position 1) ends up at position 0, so the
positional order after `prepare` is [[2], [1]]. -/
theorem prepare_reorders_values_by_name_witness :
    (named_query.names = some ["b", "a"] ∧
     (["b", "a"] : List String).Nodup ∧
     (∀ n ∈ ["b", "a"], ∃ t ∈ [spec_a, spec_b], t.name = n) ∧
     ([spec_a, spec_b] : List column_specification)[0]? = some spec_a ∧
     (["b", "a"] : List String).findIdx? (fun n => n == spec_a.name) = some 1 ∧
     1 < named_query.values.length) ∧
    ((prepare named_query [spec_a, spec_b]).2 = none ∧
     (prepare named_query [spec_a, spec_b]).1.values[0]? = named_query.values[1]? ∧
     get_value_at (prepare named_query [spec_a, spec_b]).1 0 = named_query.values[1]?) :=
  ⟨⟨rfl, by decide, by decide, rfl, by decide, by decide⟩,
   prepare_reorders_values_by_name named_query ["b", "a"] [spec_a, spec_b] 0 spec_a 1
     rfl (by decide) (by decide) rfl (by decide) (by decide)⟩

/-- C5: `prepare` signals a name-resolution fault exactly when names are
present and some name is unmatched by every spec or the names are not
unique; it signals a cardinality fault exactly when names are absent and
the value count differs from the spec count; and on any fault (indeed,
whenever it does not succeed) the instance is returned entirely
unchanged - binding is all-or-nothing. -/
theorem prepare_fault_conditions (q : query_options)
    (specs : List column_specification) :
    ((prepare q specs).2 = some bind_fault.nameResolution ↔
      ∃ ns, q.names = some ns ∧
        ((∃ n ∈ ns, ∀ t ∈ specs, t.name ≠ n) ∨ ¬ ns.Nodup)) ∧
    ((prepare q specs).2 = some bind_fault.cardinality ↔
      q.names = none ∧ q.values.length ≠ specs.length) ∧
    ((prepare q specs).2 = none ∨ (prepare q specs).1 = q) := by
  match hn : q.names with
  | none =>
      by_cases hl : q.values.length = specs.length
      · rw [prepare_of_names_none_ok q specs hn hl]
        refine ⟨?_, ?_, Or.inl rfl⟩
        · simp [hn]
        · simp [hl]
      · rw [prepare_of_names_none_fault q specs hn hl]
        refine ⟨?_, ?_, Or.inr rfl⟩
        · simp [hn]
        · simp [hn, hl]
  | some ns =>
      by_cases hc : (∀ n ∈ ns, ∃ s ∈ specs, s.name = n) ∧ ns.Nodup
      · rw [prepare_of_names_some_ok q specs ns hn hc]
        refine ⟨?_, ?_, Or.inl rfl⟩
        · simp only [hn]
          constructor
          · intro h
            exact absurd h (by simp)
          · rintro ⟨ns2, hns2, hbad⟩
            injection hns2 with hns2
            subst hns2
            rcases hbad with ⟨n, hmem, hnone⟩ | hdup
            · obtain ⟨t, ht, htn⟩ := hc.1 n hmem
              exact absurd htn (hnone t ht)
            · exact absurd hc.2 hdup
        · constructor
          · intro h
            exact absurd h (by simp)
          · rintro ⟨hnone, _⟩
            exact Option.noConfusion hnone
      · rw [prepare_of_names_some_fault q specs ns hn hc]
        refine ⟨?_, ?_, Or.inr rfl⟩
        · simp only [hn]
          constructor
          · intro _
            refine ⟨ns, rfl, ?_⟩
            rw [Decidable.not_and_iff_or_not] at hc
            rcases hc with hc1 | hc2
            · left
              push_neg at hc1
              obtain ⟨n, hmem, hno⟩ := hc1
              exact ⟨n, hmem, fun t ht => hno t ht⟩
            · right
              exact hc2
          · intro _
            trivial
        · constructor
          · intro h
            exact absurd h (by simp)
          · rintro ⟨hnone, _⟩
            exact Option.noConfusion hnone

end cql3
